import Mathlib

/-!
A verification development for `SerialGrabber.py`, a script that extracts
hardware-inventory records from network-device log captures.

The Python source is shallowly embedded below:

* the module-level regular expressions (`PROMPT_HOSTNAME_PATTERN`,
  `CONFIG_HOSTNAME_PATTERN`, `CLOCK_PATTERN`, `FALLBACK_TIME_PATTERN`,
  `NAME_DESCR_PATTERN`, `PID_SN_PATTERN`) become executable matching
  functions over `List Char`, written out from the backtracking semantics
  of each pattern (lazy `.*?`, greedy `\s*`, `re.MULTILINE` anchoring,
  leftmost-match search);
* `find_best_date` and the body of `process_content` become Lean
  functions; the external `dateutil.parser.parse(_, fuzzy=True)` call is
  an explicit function parameter `parse : String → Option PyDateTime`
  (the claims about `find_best_date` are control-flow properties that
  hold for every parser);
* the pandas stage of `parse_inventory_files` (technical sort, duplicate
  drop by serial number, visual re-sort) becomes `Deduplicator` over
  `List Record`.

Whitespace classes and digits are modelled over their ASCII ranges, which
is what the log captures contain.
-/

namespace SerialGrabber

/-- Python's `\s` class (and the default `str.strip` class), ASCII part:
space, tab, newline, carriage return, vertical tab, form feed. -/
def isPyWs (c : Char) : Bool :=
  c = ' ' || c = '\t' || c = '\n' || c = '\r' || c = '\x0b' || c = '\x0c'

/-- Python `str.strip()` on the character-list view. -/
def stripChars (l : List Char) : List Char :=
  ((l.dropWhile isPyWs).reverse.dropWhile isPyWs).reverse

/-- Python `str.strip()`. -/
def pyStrip (s : String) : String := (stripChars s.data).asString

/-- Split on `'\n'`, the line structure used by `re.MULTILINE` anchors. -/
def splitNL : List Char → List (List Char)
  | [] => [[]]
  | c :: rest =>
    if c = '\n' then [] :: splitNL rest
    else
      match splitNL rest with
      | [] => [[c]]
      | p :: ps => (c :: p) :: ps

/-- Python `str.splitlines()` (restricted to `'\n'` separators: the other
separator characters recognised by `splitlines` do not occur in the
inputs the claims quantify over, and `'\r'` is removed by the
`line.strip()` the extractor applies to every line). -/
def pySplitlines (l : List Char) : List (List Char) :=
  let p := splitNL l
  if p.getLast? = some [] then p.dropLast else p

/-- The suffixes of `l` that start just after a `'\n'`: together with `l`
itself these are the positions where a `re.MULTILINE` `^` can match. -/
def lineSuffixes : List Char → List (List Char)
  | [] => []
  | c :: rest =>
    if c = '\n' then rest :: lineSuffixes rest
    else lineSuffixes rest

/-- First successful application of `f` along a list of start positions:
the leftmost-match rule of `re.search`. -/
def firstSome (f : List Char → Option (List Char)) : List (List Char) → Option (List Char)
  | [] => none
  | x :: xs =>
    match f x with
    | some g => some g
    | none => firstSome f xs

/-! ### `PROMPT_HOSTNAME_PATTERN = r'^(.*?)#\s*show inventory'` (MULTILINE) -/

/-- Attempt `(.*?)#\s*show inventory` at a line start.  The lazy group
scans right through the line for a `'#'` whose continuation (`\s*`, which
may cross newlines, then the literal `show inventory`) succeeds; a `'#'`
with a failing continuation is consumed by `.` and the scan goes on.  `.`
never matches `'\n'`, so the `'#'` must sit on the same line. -/
def promptLine : List Char → Option (List Char)
  | [] => none
  | c :: rest =>
    if c = '\n' then none
    else if c = '#' && "show inventory".data.isPrefixOf (rest.dropWhile isPyWs) then
      some []
    else (promptLine rest).map (c :: ·)

/-- `PROMPT_HOSTNAME_PATTERN.search`: try every line start in order,
return the first capture. -/
def promptSearch (l : List Char) : Option (List Char) :=
  firstSome promptLine (l :: lineSuffixes l)

/-! ### `CONFIG_HOSTNAME_PATTERN = r'^hostname\s+([^\s]+)'` (MULTILINE) -/

/-- Attempt `hostname\s+([^\s]+)` at a line start: the literal word, at
least one whitespace character (`\s+` may cross newlines), then a
maximal nonempty run of non-whitespace characters as the capture. -/
def configLine (l : List Char) : Option (List Char) :=
  if "hostname".data.isPrefixOf l then
    match l.drop 8 with
    | [] => none
    | c :: rest =>
      if isPyWs c then
        let tok := (rest.dropWhile isPyWs).takeWhile (fun d => !(isPyWs d))
        if tok.isEmpty then none else some tok
      else none
  else none

/-- `CONFIG_HOSTNAME_PATTERN.search`. -/
def configSearch (l : List Char) : Option (List Char) :=
  firstSome configLine (l :: lineSuffixes l)

/-! ### `CLOCK_PATTERN = r'.*?#\s*show clock\s*\n\s*(.*)'` (MULTILINE) -/

/-- Continuation of `CLOCK_PATTERN` after a `'#'`: `\s*show clock`, then
`\s*\n` (the greedy `\s*` backtracks so the literal `\n` is the last
newline of the maximal whitespace run), then `\s*(.*)` (greedy
whitespace, then the capture runs to the end of that line). -/
def clockAfterHash (rest : List Char) : Option (List Char) :=
  let r1 := rest.dropWhile isPyWs
  if "show clock".data.isPrefixOf r1 then
    let r2 := r1.drop 10
    let w := r2.takeWhile isPyWs
    if w.contains '\n' then some ((r2.drop w.length).takeWhile (· ≠ '\n'))
    else none
  else none

/-- `CLOCK_PATTERN.search`: the pattern has no `^` anchor and starts with
a lazy `.*?`, so the match is decided by the first `'#'` in the text
whose continuation succeeds. -/
def clockSearch : List Char → Option (List Char)
  | [] => none
  | c :: rest =>
    if c = '#' then
      match clockAfterHash rest with
      | some g => some g
      | none => clockSearch rest
    else clockSearch rest

/-! ### `FALLBACK_TIME_PATTERN = r'^.*?\d{2}:\d{2}:\d{2}.*?$'` (MULTILINE) -/

/-- Does the list start with `\d{2}:\d{2}:\d{2}` (ASCII digits)? -/
def startsTime : List Char → Bool
  | a :: b :: c :: d :: e :: f :: g :: h :: _ =>
    a.isDigit && b.isDigit && c = ':' && d.isDigit && e.isDigit && f = ':' &&
      g.isDigit && h.isDigit
  | _ => false

/-- Does the line contain an `HH:MM:SS` substring?  A line matches
`FALLBACK_TIME_PATTERN` (whose `findall` consumes whole lines) exactly
when this holds. -/
def hasTime : List Char → Bool
  | [] => false
  | l@(_ :: rest) => startsTime l || hasTime rest

/-- `FALLBACK_TIME_PATTERN.findall content`: every line of the text that
contains an `HH:MM:SS` substring, in file order. -/
def timeCandidates (content : String) : List (List Char) :=
  (splitNL content.data).filter hasTime

/-! ### `NAME_DESCR_PATTERN = r'NAME:\s*"(.*?)",\s*DESCR:\s*"(.*?)"'` -/

/-- The second lazy group `(.*?)"`: characters up to the first `'"'`
(nothing constrains the regex after it, so the first quote closes the
group); `.` never matches `'\n'`. -/
def lazyToQuote : List Char → Option (List Char)
  | [] => none
  | c :: rest =>
    if c = '"' then some []
    else if c = '\n' then none
    else (lazyToQuote rest).map (c :: ·)

/-- After `",` in the middle of `NAME_DESCR_PATTERN`:
`\s*DESCR:\s*"(.*?)"`. -/
def ndAfterComma (l : List Char) : Option (List Char) :=
  let r := l.dropWhile isPyWs
  if "DESCR:".data.isPrefixOf r then
    match (r.drop 6).dropWhile isPyWs with
    | c :: r2 => if c = '"' then lazyToQuote r2 else none
    | [] => none
  else none

/-- The first lazy group `(.*?)",...`: at each position first try the
continuation `",\s*DESCR:\s*"(.*?)"`; when it fails, the `'"'` (or any
other non-newline character) is consumed by `.` and the scan goes on. -/
def ndGroups : List Char → Option (List Char × List Char)
  | [] => none
  | '"' :: ',' :: r2 =>
    match ndAfterComma r2 with
    | some g2 => some ([], g2)
    | none => (ndGroups (',' :: r2)).map (fun p => ('"' :: p.1, p.2))
  | c :: rest =>
    if c = '\n' then none
    else (ndGroups rest).map (fun p => (c :: p.1, p.2))

/-- Attempt `NAME_DESCR_PATTERN` at one position: literal `NAME:`, greedy
`\s*`, an opening `'"'`, then the two captured groups. -/
def ndAt (l : List Char) : Option (String × String) :=
  if "NAME:".data.isPrefixOf l then
    match (l.drop 5).dropWhile isPyWs with
    | c :: r1 =>
      if c = '"' then (ndGroups r1).map (fun p => (p.1.asString, p.2.asString))
      else none
    | [] => none
  else none

/-- `NAME_DESCR_PATTERN.search`: leftmost position where the attempt
succeeds. -/
def ndSearch : List Char → Option (String × String)
  | [] => none
  | l@(_ :: rest) =>
    match ndAt l with
    | some p => some p
    | none => ndSearch rest

/-! ### `PID_SN_PATTERN = r'PID:\s*([^,]*)\s*,\s*VID:.*,\s*SN:\s*(.*)'` -/

/-- The tail `\s*SN:\s*(.*)` tried after a candidate comma: greedy
whitespace (which may cross newlines), the literal `SN:`, greedy
whitespace again, then the capture runs to the end of the line. -/
def snTail (l : List Char) : Option (List Char) :=
  let r := l.dropWhile isPyWs
  if "SN:".data.isPrefixOf r then
    some (((r.drop 3).dropWhile isPyWs).takeWhile (· ≠ '\n'))
  else none

/-- Backtracking of the greedy `VID:.*,\s*SN:\s*(.*)`: the comma chosen
is the last one on the current line (`.` cannot cross `'\n'`) whose tail
matches `\s*SN:\s*(.*)`. -/
def pidCommaScan : List Char → Option (List Char)
  | [] => none
  | ',' :: rest =>
    match pidCommaScan rest with
    | some g => some g
    | none => snTail rest
  | c :: rest =>
    if c = '\n' then none
    else pidCommaScan rest

/-- Attempt `PID_SN_PATTERN` at one position.  `\s*([^,]*)\s*,` makes the
first group everything between `PID:` and the first comma with the
leading whitespace eaten by `\s*` (the negated class `[^,]` does match
newlines); then `\s*VID:` must follow the comma. -/
def pidSnAt (l : List Char) : Option (String × String) :=
  if "PID:".data.isPrefixOf l then
    let r := l.drop 4
    let seg := r.takeWhile (· ≠ ',')
    match r.drop seg.length with
    | ',' :: r1 =>
      let r2 := r1.dropWhile isPyWs
      if "VID:".data.isPrefixOf r2 then
        match pidCommaScan (r2.drop 4) with
        | some sng => some ((seg.dropWhile isPyWs).asString, sng.asString)
        | none => none
      else none
    | _ => none
  else none

/-- `PID_SN_PATTERN.search`. -/
def pidSnSearch : List Char → Option (String × String)
  | [] => none
  | l@(_ :: rest) =>
    match pidSnAt l with
    | some p => some p
    | none => pidSnSearch rest

/-! ### Timestamps and `find_best_date` -/

/-- A `datetime.datetime` as far as the script observes it: the `year`
attribute, the remaining calendar fields (which only enter through the
ordering used by the deduplication sort), and the timezone slot cleared
by `dt.replace(tzinfo=None)`. -/
structure PyDateTime where
  year : Int
  month : Nat
  day : Nat
  hour : Nat
  minute : Nat
  second : Nat
  tzoff : Option Int
deriving DecidableEq, Repr

/-- `dt.replace(tzinfo=None)`. -/
def dropTz (dt : PyDateTime) : PyDateTime := { dt with tzoff := none }

/-- The type of the external `dateutil.parser.parse(s, fuzzy=True)` call:
`none` models the `except` branch taken when parsing raises. -/
def Parser : Type := String → Option PyDateTime

/-- The fallback loop of `find_best_date` (lines 70-80): iterate over the
candidate lines already reversed, return the first line that parses to a
timestamp with year after 1990, stripped; skip the rest. -/
def fallbackGo (parse : Parser) : List (List Char) → Option PyDateTime × Option String
  | [] => (none, none)
  | c :: rest =>
    match parse c.asString with
    | some dt =>
      if 1990 < dt.year then (some (dropTz dt), some (pyStrip c.asString))
      else fallbackGo parse rest
    | none => fallbackGo parse rest

/-- Steps 2 of `find_best_date`: scan all `HH:MM:SS` candidate lines in
reverse file order. -/
def fallbackScan (parse : Parser) (content : String) : Option PyDateTime × Option String :=
  fallbackGo parse (timeCandidates content).reverse

/-- `find_best_date(content)` (lines 50-82): try the explicit
`show clock` capture first; on a successful parse return immediately,
otherwise fall through to the reverse fallback scan. -/
def find_best_date (parse : Parser) (content : String) : Option PyDateTime × Option String :=
  match clockSearch content.data with
  | some g =>
    match parse (pyStrip g.asString) with
    | some dt => (some (dropTz dt), some (pyStrip g.asString))
    | none => fallbackScan parse content
  | none => fallbackScan parse content

/-- The explicit `show clock` source yields nothing: either no
`CLOCK_PATTERN` match, or its captured value fails to parse (the `except`
branch at lines 63-64). -/
def clockFailed (parse : Parser) (content : String) : Bool :=
  match clockSearch content.data with
  | none => true
  | some g => (parse (pyStrip g.asString)).isNone

/-- A fallback candidate line is rejected: parsing raises, or the
resolved year fails the `dt.year > 1990` sanity guard (line 77). -/
def candidateRejected (parse : Parser) (x : List Char) : Bool :=
  match parse x.asString with
  | none => true
  | some d => decide (d.year ≤ 1990)

/-! ### `process_content`: hostname resolution and the line state machine -/

/-- One row appended to `extracted_data` (lines 123-134). -/
structure Record where
  hostname : String
  capture_time : Option PyDateTime
  raw_time : Option String
  sn : String
  pid : String
  name : String
  descr : String
  source : String
  college : String
  priority : Nat
deriving DecidableEq, Repr

/-- The per-block values stamped onto every record of the block. -/
structure Ctx where
  hostname : String
  priority : Nat
  capture_time : Option PyDateTime
  raw_time : Option String
  source : String
  college : String
deriving DecidableEq, Repr

/-- Hostname logic of `process_content` (lines 87-98): prompt pattern
first (priority 2), then configuration pattern (priority 1), else the
file name verbatim (priority 0). -/
def resolveHostname (content fileName : String) : String × Nat :=
  match promptSearch content.data with
  | some g => (pyStrip g.asString, 2)
  | none =>
    match configSearch content.data with
    | some g => (pyStrip g.asString, 1)
    | none => (fileName, 0)

/-- Python truthiness of `current_name` (line 117): set and nonempty. -/
def truthy : Option String → Bool
  | none => false
  | some s => s ≠ ""

/-- Build the record appended at lines 123-134. -/
def mkRecord (ctx : Ctx) (pn pd : Option String) (pid sn : String) : Record :=
  { hostname := ctx.hostname
    capture_time := ctx.capture_time
    raw_time := ctx.raw_time
    sn := pyStrip sn
    pid := pyStrip pid
    name := pn.getD ""
    descr := pd.getD ""
    source := ctx.source
    college := ctx.college
    priority := ctx.priority }

/-- The extraction loop of `process_content` (lines 104-137): strip each
line; a `NAME/DESCR` match (re)sets the pending pair and `continue`s;
otherwise, when `current_name` is truthy and the line starts with `PID:`,
a matching `PID/SN` line emits a record, and the pending pair is cleared
whether or not the `PID:` line matched; every other line is ignored. -/
def extractLoop (ctx : Ctx) : List String → Option String → Option String → List Record
  | [], _, _ => []
  | line :: rest, pn, pd =>
    let l := pyStrip line
    match ndSearch l.data with
    | some (n, d) => extractLoop ctx rest (some n) (some d)
    | none =>
      if truthy pn && "PID:".data.isPrefixOf l.data then
        match pidSnSearch l.data with
        | some (pid, sn) => mkRecord ctx pn pd pid sn :: extractLoop ctx rest none none
        | none => extractLoop ctx rest none none
      else extractLoop ctx rest pn pd

/-- `process_content` (lines 84-137) as a function returning the records
it appends to `extracted_data`. -/
def process_content (parse : Parser) (content fullDisplayPath fileName collegeName : String) :
    List Record :=
  let hp := resolveHostname content fileName
  let tr := find_best_date parse content
  extractLoop
    { hostname := hp.1, priority := hp.2, capture_time := tr.1, raw_time := tr.2,
      source := fullDisplayPath, college := collegeName }
    ((pySplitlines content.data).map List.asString) none none

/-! ### The Deduplicator (`parse_inventory_files`, lines 210-238)

The pandas stage: add a `Descr_Len` column, sort descending by
`(_Hostname_Priority, Descr_Len, Capture Time)` with missing capture
times last, `drop_duplicates(subset=['SN'], keep='first')`, then re-sort
ascending by `(Hostname, NAME)`.  Sort keys are encoded as `List Int`
compared lexicographically, so one order relation serves both sorts. -/

/-- Lexicographic order on integer lists; a strict prefix sorts first.
This is the comparison pandas applies to the multi-column sort keys. -/
def listLexLe : List Int → List Int → Bool
  | [], _ => true
  | _ :: _, [] => false
  | a :: as, b :: bs =>
    if a < b then true
    else if b < a then false
    else listLexLe as bs

/-- `df['DESCR'].astype(str).map(len)` (line 215): `DESCR` always holds a
string, so `astype(str)` is the identity and the length is the character
count. -/
def descrLen (r : Record) : Nat := r.descr.length

/-- Chronological order on naive timestamps is lexicographic on the
calendar fields. -/
def dtKey (d : PyDateTime) : List Int :=
  [d.year, (d.month : Int), (d.day : Int), (d.hour : Int), (d.minute : Int), (d.second : Int)]

/-- The technical sort key of lines 218-223, negated direction folded in:
`listLexLe (techKeyL q) (techKeyL r)` says `r` may precede `q` in the
descending sort.  A missing capture time contributes the empty suffix,
which is lexicographically minimal — exactly the effect of
`na_position='last'` under `ascending=False`. -/
def techKeyL (r : Record) : List Int :=
  [(r.priority : Int), (descrLen r : Int)] ++
    (match r.capture_time with
     | none => []
     | some d => dtKey d)

/-- `r` may precede `q` in the descending technical sort. -/
def techR (r q : Record) : Prop := listLexLe (techKeyL q) (techKeyL r) = true

instance : DecidableRel techR := fun r q =>
  instDecidableEqBool (listLexLe (techKeyL q) (techKeyL r)) true

/-- Code-point encoding of a string with a `-1` terminator: lexicographic
comparison of the concatenated encodings is exactly the column-by-column
`(Hostname, NAME)` comparison, because `-1` sorts below every code point
(a shorter string that is a prefix of a longer one sorts first, as in
Python). -/
def strCode (s : String) : List Int := s.data.map (fun c => (c.toNat : Int)) ++ [-1]

/-- The visual sort key of line 234: `Hostname` then `NAME`, ascending. -/
def visKeyL (r : Record) : List Int := strCode r.hostname ++ strCode r.name

/-- `r` may precede `q` in the ascending visual sort. -/
def visR (r q : Record) : Prop := listLexLe (visKeyL r) (visKeyL q) = true

instance : DecidableRel visR := fun r q =>
  instDecidableEqBool (listLexLe (visKeyL r) (visKeyL q)) true

/-- `drop_duplicates(subset=['SN'], keep='first')` (line 228): keep each
row whose `SN` has not been seen in an earlier row. -/
def dedupAux (seen : List String) : List Record → List Record
  | [] => []
  | r :: rs =>
    if r.sn ∈ seen then dedupAux seen rs
    else r :: dedupAux (r.sn :: seen) rs

/-- Duplicate removal by serial number, first occurrence kept. -/
def dedupBySN (l : List Record) : List Record := dedupAux [] l

/-- The whole Deduplicator: technical sort, duplicate drop by `SN`,
visual re-sort (lines 215-234). -/
def Deduplicator (rs : List Record) : List Record :=
  List.insertionSort visR (dedupBySN (List.insertionSort techR rs))

/-- `duplicates_removed = initial_count - final_count` (lines 225-231). -/
def duplicatesRemoved (rs : List Record) : Nat :=
  rs.length - (dedupBySN (List.insertionSort techR rs)).length

/-! ### Concrete data used by the witnesses -/

/-- A parser that always raises. -/
def parseNone : Parser := fun _ => none

/-- A capture whose `show clock` value and fallback line both parse. -/
def clockContent : String := "R1# show clock\n 10:22:33 Jan 1 2024\nnoise 11:11:11 x\n"

/-- Parser for `clockContent`: the clock value carries a timezone (to
exercise `dt.replace(tzinfo=None)`), and the fallback candidate would
parse to a later year if it were ever consulted. -/
def parseClock : Parser := fun s =>
  if s = "10:22:33 Jan 1 2024" then some ⟨2024, 1, 1, 10, 22, 33, some 0⟩
  else if s = "noise 11:11:11 x" then some ⟨2025, 1, 1, 11, 11, 11, none⟩
  else none

/-- The one timestamp-like line of spec Scenario C. -/
def dupLine : String := "Logging started at 03:14:07 in 2023"

/-- Scenario C: the parsable line appears twice, once early, once late. -/
def scenarioC : String := "junk\n" ++ dupLine ++ "\nmore\n" ++ dupLine ++ "\n"

/-- Parser that only understands `dupLine`. -/
def parseDup : Parser := fun s =>
  if s = dupLine then some ⟨2023, 1, 1, 3, 14, 7, none⟩ else none

/-- A capture with an explicit clock line whose value never parses, and
one fallback candidate that never parses either. -/
def badClockContent : String := "R1# show clock\nunparsable 10:11:12\n"

/-- A capture containing both a prompt-style and a configuration-style
hostname line. -/
def bothHostsContent : String := "SW1#show inventory\nhostname CFG1\n"

/-- A capture whose `PID:` line matches `PID_SN_PATTERN` with empty
captures for both groups. -/
def emptySnContent : String := "NAME: \"Chassis\", DESCR: \"desc\"\nPID:, VID: V01, SN:\n"

/-- The record `process_content parseNone emptySnContent "s" "f" "c"`
emits. -/
def emptySnRecord : Record :=
  { hostname := "f", capture_time := none, raw_time := none, sn := "", pid := "",
    name := "Chassis", descr := "desc", source := "s", college := "c", priority := 0 }

/-- A block context for the extraction-loop witnesses. -/
def ctx0 : Ctx :=
  { hostname := "h", priority := 0, capture_time := none, raw_time := none,
    source := "s", college := "c" }

/-- A Name/Description line. -/
def ndLineA : String := "NAME: \"A\", DESCR: \"B\""

/-- A second Name/Description line, overwriting the first pair. -/
def ndLineC : String := "NAME: \"C\", DESCR: \"D\""

/-- A line that matches neither pattern and does not start with `PID:`. -/
def junkLine : String := "ignore me"

/-- A `PID:` line matching `PID_SN_PATTERN`. -/
def goodPidLine : String := "PID: P1, VID: V1, SN: S1"

/-- A `PID:` line that fails `PID_SN_PATTERN` (no comma at all). -/
def badPidLine : String := "PID: garbage"

/-- Two records sharing a serial number: `recLow` has the longer
description but the weaker hostname source. -/
def recLow : Record :=
  { hostname := "beta", capture_time := none, raw_time := none, sn := "S1",
    pid := "P", name := "slot", descr := "a much longer description", source := "s1",
    college := "c", priority := 0 }

/-- The priority-2 record that must win deduplication for serial `S1`. -/
def recHigh : Record :=
  { hostname := "alpha", capture_time := some ⟨2024, 1, 1, 0, 0, 0, none⟩,
    raw_time := some "t", sn := "S1", pid := "P", name := "slot", descr := "x",
    source := "s2", college := "c", priority := 2 }

/-! ### Order lemmas for the sort keys -/

theorem listLexLe_refl (a : List Int) : listLexLe a a = true := by
  induction a with
  | nil => rfl
  | cons x xs ih => simp [listLexLe, ih]

theorem listLexLe_total (a b : List Int) : listLexLe a b = true ∨ listLexLe b a = true := by
  induction a generalizing b with
  | nil => exact Or.inl rfl
  | cons x xs ih =>
    cases b with
    | nil => exact Or.inr rfl
    | cons y ys =>
      rcases lt_trichotomy x y with h | h | h
      · exact Or.inl (by simp [listLexLe, h])
      · subst h
        rcases ih ys with h2 | h2
        · exact Or.inl (by simp [listLexLe, h2])
        · exact Or.inr (by simp [listLexLe, h2])
      · exact Or.inr (by simp [listLexLe, h])

theorem listLexLe_trans :
    ∀ a b c : List Int, listLexLe a b = true → listLexLe b c = true → listLexLe a c = true
  | [], _, _, _, _ => rfl
  | _ :: _, [], _, h1, _ => by simp [listLexLe] at h1
  | _ :: _, _ :: _, [], _, h2 => by simp [listLexLe] at h2
  | x :: xs, y :: ys, z :: zs, h1, h2 => by
    simp only [listLexLe] at h1 h2 ⊢
    split_ifs at h1 h2 ⊢ <;>
      first
      | rfl
      | omega
      | exact listLexLe_trans xs ys zs h1 h2

theorem techR_refl (r : Record) : techR r r := listLexLe_refl _

theorem techR_total (r q : Record) : techR r q ∨ techR q r :=
  listLexLe_total (techKeyL q) (techKeyL r)

theorem techR_trans {a b c : Record} (h1 : techR a b) (h2 : techR b c) : techR a c :=
  listLexLe_trans _ _ _ h2 h1

theorem visR_total (r q : Record) : visR r q ∨ visR q r :=
  listLexLe_total (visKeyL r) (visKeyL q)

theorem visR_trans {a b c : Record} (h1 : visR a b) (h2 : visR b c) : visR a c :=
  listLexLe_trans _ _ _ h1 h2

/-! ### Lemmas about duplicate removal -/

theorem mem_of_mem_dedupAux :
    ∀ (seen : List String) (l : List Record) (r : Record), r ∈ dedupAux seen l → r ∈ l := by
  intro seen l
  induction l generalizing seen with
  | nil => intro r h; simp [dedupAux] at h
  | cons x xs ih =>
    intro r h
    simp only [dedupAux] at h
    split at h
    · exact List.mem_cons_of_mem _ (ih seen r h)
    · rcases List.mem_cons.1 h with h1 | h1
      · exact h1 ▸ List.mem_cons_self _ _
      · exact List.mem_cons_of_mem _ (ih _ r h1)

theorem sn_notin_seen_of_mem_dedupAux :
    ∀ (seen : List String) (l : List Record) (r : Record),
      r ∈ dedupAux seen l → r.sn ∉ seen := by
  intro seen l
  induction l generalizing seen with
  | nil => intro r h; simp [dedupAux] at h
  | cons x xs ih =>
    intro r h
    simp only [dedupAux] at h
    split at h
    · exact ih seen r h
    · rcases List.mem_cons.1 h with h1 | h1
      · subst h1; assumption
      · intro hs
        exact ih _ r h1 (List.mem_cons_of_mem _ hs)

theorem countP_dedupAux (s : String) :
    ∀ (seen : List String) (l : List Record),
      (dedupAux seen l).countP (fun r => r.sn == s) =
        if s ∈ seen then 0 else if s ∈ l.map Record.sn then 1 else 0 := by
  intro seen l
  induction l generalizing seen with
  | nil => simp [dedupAux]
  | cons x xs ih =>
    simp only [dedupAux]
    by_cases hx : x.sn ∈ seen
    · rw [if_pos hx, ih seen]
      by_cases hs : s ∈ seen
      · simp [hs]
      · have hne : x.sn ≠ s := fun h => hs (h ▸ hx)
        simp [hs, List.mem_cons, hne, Ne.symm hne]
    · rw [if_neg hx, List.countP_cons, ih (x.sn :: seen)]
      by_cases hs : s ∈ seen
      · have hne : x.sn ≠ s := fun h => hx (h ▸ hs)
        simp [hs, List.mem_cons, hne, Ne.symm hne]
      · by_cases hxs : x.sn = s
        · subst hxs
          simp [hx, hs]
        · simp [hs, List.mem_cons, hxs, Ne.symm hxs]

theorem dedupAux_max :
    ∀ (l : List Record) (seen : List String) (r : Record),
      l.Pairwise techR → r ∈ dedupAux seen l →
      ∀ q ∈ l, q.sn = r.sn → techR r q := by
  intro l
  induction l with
  | nil => intro seen r _ h; simp [dedupAux] at h
  | cons x xs ih =>
    intro seen r hp hr q hq hsn
    have hx := List.pairwise_cons.1 hp
    simp only [dedupAux] at hr
    split at hr
    · -- `x.sn` already seen: `r` comes from the tail and has an unseen sn
      have hrs := sn_notin_seen_of_mem_dedupAux seen xs r hr
      rcases List.mem_cons.1 hq with h1 | h1
      · exact absurd (hsn ▸ h1 ▸ ‹x.sn ∈ seen›) hrs
      · exact ih seen r hx.2 hr q h1 hsn
    · rcases List.mem_cons.1 hr with h1 | h1
      · subst h1
        rcases List.mem_cons.1 hq with h2 | h2
        · exact h2 ▸ techR_refl r
        · exact hx.1 q h2
      · have hrs := sn_notin_seen_of_mem_dedupAux _ xs r h1
        have hrx : r.sn ≠ x.sn := fun h => hrs (h ▸ List.mem_cons_self _ _)
        rcases List.mem_cons.1 hq with h2 | h2
        · exact absurd (h2 ▸ hsn) (fun h => hrx h.symm)
        · exact ih _ r hx.2 h1 q h2 hsn

theorem dedupAux_eq_self :
    ∀ (l : List Record) (seen : List String),
      (∀ r ∈ l, r.sn ∉ seen) → (l.map Record.sn).Nodup → dedupAux seen l = l := by
  intro l
  induction l with
  | nil => intro seen _ _; rfl
  | cons x xs ih =>
    intro seen hseen hnd
    have hx : x.sn ∉ seen := hseen x (List.mem_cons_self _ _)
    have hnd2 : (∀ y ∈ xs, ¬y.sn = x.sn) ∧ (List.map Record.sn xs).Nodup := by
      simpa using hnd
    simp only [dedupAux, if_neg hx]
    congr 1
    refine ih (x.sn :: seen) ?_ hnd2.2
    intro r hr
    simp only [List.mem_cons]
    rintro (h | h)
    · exact hnd2.1 r hr h
    · exact hseen r (List.mem_cons_of_mem _ hr) h

theorem nodup_map_sn_dedupAux :
    ∀ (l : List Record) (seen : List String), ((dedupAux seen l).map Record.sn).Nodup := by
  intro l
  induction l with
  | nil => intro seen; simp [dedupAux]
  | cons x xs ih =>
    intro seen
    simp only [dedupAux]
    split
    · exact ih seen
    · simp only [List.map_cons, List.nodup_cons]
      refine ⟨?_, ih (x.sn :: seen)⟩
      intro hmem
      rcases List.mem_map.1 hmem with ⟨r, hr, hrs⟩
      exact sn_notin_seen_of_mem_dedupAux _ _ r hr (hrs ▸ List.mem_cons_self _ _)

/-! ### Lemmas about `find_best_date` -/

theorem fallbackGo_skip (parse : Parser) :
    ∀ (pre rest : List (List Char)),
      (∀ x ∈ pre, candidateRejected parse x = true) →
      fallbackGo parse (pre ++ rest) = fallbackGo parse rest := by
  intro pre
  induction pre with
  | nil => intro rest _; rfl
  | cons c cs ih =>
    intro rest h
    have hc := h c (List.mem_cons_self _ _)
    simp only [List.cons_append, fallbackGo]
    cases hp : parse c.asString with
    | none => exact ih rest (fun x hx => h x (List.mem_cons_of_mem _ hx))
    | some d =>
      have hd : d.year ≤ 1990 := by simpa [candidateRejected, hp] using hc
      show (if 1990 < d.year then (some (dropTz d), some (pyStrip c.asString))
            else fallbackGo parse (cs ++ rest)) = fallbackGo parse rest
      rw [if_neg (by omega)]
      exact ih rest (fun x hx => h x (List.mem_cons_of_mem _ hx))

theorem find_best_date_clock_none (parse : Parser) (content : String)
    (h : clockSearch content.data = none) :
    find_best_date parse content = fallbackScan parse content := by
  simp [find_best_date, h]

theorem find_best_date_clock_fail (parse : Parser) (content : String) (g : List Char)
    (h : clockSearch content.data = some g)
    (h2 : parse (pyStrip g.asString) = none) :
    find_best_date parse content = fallbackScan parse content := by
  simp [find_best_date, h, h2]

/-! ### Claim theorems -/

/-- C1: among all records sharing a serial number, the Deduplicator keeps
exactly one, and the kept record is an input record whose
`(hostname_priority, description_length, capture_time)` key is maximal
under the descending lexicographic order, missing capture time minimal. -/
theorem dedup_keeps_unique_max (rs : List Record) (s : String)
    (hs : s ∈ rs.map Record.sn) :
    (Deduplicator rs).countP (fun r => r.sn == s) = 1 ∧
    ∀ r ∈ Deduplicator rs, r.sn = s →
      r ∈ rs ∧ ∀ q ∈ rs, q.sn = s → listLexLe (techKeyL q) (techKeyL r) = true := by
  haveI : IsTotal Record techR := ⟨techR_total⟩
  haveI : IsTrans Record techR := ⟨fun _ _ _ => techR_trans⟩
  have hperm1 : List.Perm (List.insertionSort techR rs) rs := List.perm_insertionSort techR rs
  have hsorted : (List.insertionSort techR rs).Pairwise techR :=
    List.sorted_insertionSort techR rs
  have hperm2 :
      List.Perm (List.insertionSort visR (dedupBySN (List.insertionSort techR rs)))
        (dedupBySN (List.insertionSort techR rs)) :=
    List.perm_insertionSort visR _
  constructor
  · rw [show Deduplicator rs =
        List.insertionSort visR (dedupBySN (List.insertionSort techR rs)) from rfl,
      hperm2.countP_eq, dedupBySN, countP_dedupAux]
    have hmem : s ∈ (List.insertionSort techR rs).map Record.sn :=
      ((hperm1.map Record.sn).mem_iff).2 hs
    simp [hmem]
  · intro r hr hrs
    have hrd : r ∈ dedupBySN (List.insertionSort techR rs) := hperm2.mem_iff.1 hr
    have hrl : r ∈ List.insertionSort techR rs := mem_of_mem_dedupAux _ _ r hrd
    refine ⟨hperm1.mem_iff.1 hrl, ?_⟩
    intro q hq hqs
    have hql : q ∈ List.insertionSort techR rs := hperm1.mem_iff.2 hq
    exact dedupAux_max _ [] r hsorted hrd q hql (hqs.trans hrs.symm)

/-- C8: the Deduplicator is idempotent — re-running it on its own output
permutes that output (same record set) and removes zero duplicates. -/
theorem dedup_idempotent (rs : List Record) :
    (Deduplicator (Deduplicator rs)).Perm (Deduplicator rs) ∧
    duplicatesRemoved (Deduplicator rs) = 0 := by
  have h1 : ((dedupBySN (List.insertionSort techR rs)).map Record.sn).Nodup :=
    nodup_map_sn_dedupAux _ []
  have hpv :
      List.Perm (Deduplicator rs) (dedupBySN (List.insertionSort techR rs)) :=
    List.perm_insertionSort visR _
  have hnodupOut : ((Deduplicator rs).map Record.sn).Nodup :=
    ((hpv.map Record.sn).nodup_iff).2 h1
  have hpt : List.Perm (List.insertionSort techR (Deduplicator rs)) (Deduplicator rs) :=
    List.perm_insertionSort techR _
  have hnodupT : ((List.insertionSort techR (Deduplicator rs)).map Record.sn).Nodup :=
    ((hpt.map Record.sn).nodup_iff).2 hnodupOut
  have heq :
      dedupBySN (List.insertionSort techR (Deduplicator rs)) =
        List.insertionSort techR (Deduplicator rs) :=
    dedupAux_eq_self _ [] (by simp) hnodupT
  constructor
  · show List.Perm (List.insertionSort visR
        (dedupBySN (List.insertionSort techR (Deduplicator rs)))) (Deduplicator rs)
    rw [heq]
    exact (List.perm_insertionSort visR _).trans hpt
  · show (Deduplicator rs).length -
        (dedupBySN (List.insertionSort techR (Deduplicator rs))).length = 0
    rw [heq, hpt.length_eq, Nat.sub_self]

/-- C1 witness: of two records sharing serial `S1`, the priority-2 one is
the unique survivor even though its description is shorter. -/
theorem dedup_keeps_unique_max_witness :
    "S1" ∈ [recLow, recHigh].map Record.sn ∧
    ((Deduplicator [recLow, recHigh]).countP (fun r => r.sn == "S1") = 1 ∧
      ∀ r ∈ Deduplicator [recLow, recHigh], r.sn = "S1" →
        r ∈ [recLow, recHigh] ∧
          ∀ q ∈ [recLow, recHigh], q.sn = "S1" →
            listLexLe (techKeyL q) (techKeyL r) = true) :=
  ⟨by decide, dedup_keeps_unique_max [recLow, recHigh] "S1" (by decide)⟩

/-- C2: hostname resolution takes exactly one path, in fixed order:
prompt-style match gives priority 2 (also when a configuration-style line
is present), otherwise a configuration-style match gives priority 1,
otherwise the fallback identifier is used verbatim with priority 0. -/
theorem hostname_resolution_order (content fileName : String) :
    (∀ g, promptSearch content.data = some g →
      resolveHostname content fileName = (pyStrip g.asString, 2)) ∧
    (promptSearch content.data = none →
      ∀ g, configSearch content.data = some g →
        resolveHostname content fileName = (pyStrip g.asString, 1)) ∧
    (promptSearch content.data = none → configSearch content.data = none →
      resolveHostname content fileName = (fileName, 0)) := by
  refine ⟨fun g hg => ?_, fun hp g hg => ?_, fun hp hc => ?_⟩ <;>
    simp [resolveHostname, *]

/-- C2 witness: a block containing both a prompt-style and a
configuration-style hostname resolves to the prompt token at priority 2. -/
theorem hostname_resolution_order_witness :
    configSearch bothHostsContent.data = some "CFG1".data ∧
    resolveHostname bothHostsContent "fallback.txt" = ("SW1", 2) := by
  refine ⟨by decide, ?_⟩
  rw [(hostname_resolution_order bothHostsContent "fallback.txt").1 "SW1".data (by decide)]
  decide

/-- C3: a `show clock` capture whose value parses is returned at once,
timezone discarded, paired with that raw line; the result does not
consult the fallback candidates. -/
theorem clock_short_circuit (parse : Parser) (content : String) (g : List Char)
    (dt : PyDateTime) (hg : clockSearch content.data = some g)
    (hp : parse (pyStrip g.asString) = some dt) :
    find_best_date parse content = (some (dropTz dt), some (pyStrip g.asString)) := by
  simp [find_best_date, hg, hp]

/-- C3 witness: the clock value (carrying a timezone) wins over a later
fallback candidate that would have parsed to a different timestamp. -/
theorem clock_short_circuit_witness :
    find_best_date parseClock clockContent =
      (some ⟨2024, 1, 1, 10, 22, 33, none⟩, some "10:22:33 Jan 1 2024") := by
  rw [clock_short_circuit parseClock clockContent "10:22:33 Jan 1 2024".data
    ⟨2024, 1, 1, 10, 22, 33, some 0⟩ (by decide) (by decide)]
  decide

/-- C4: with no usable explicit clock, the candidate lines (the lines
containing an `HH:MM:SS` substring) are scanned in reverse file order and
the first one parsing with year after 1990 is returned, stripped. -/
theorem fallback_reverse_scan (parse : Parser) (content : String)
    (pre post : List (List Char)) (c : List Char) (dt : PyDateTime)
    (hclock : clockFailed parse content = true)
    (hsplit : (timeCandidates content).reverse = pre ++ c :: post)
    (hpre : ∀ x ∈ pre, candidateRejected parse x = true)
    (hc : parse c.asString = some dt) (hy : 1990 < dt.year) :
    find_best_date parse content = (some (dropTz dt), some (pyStrip c.asString)) := by
  have hfall : fallbackScan parse content = (some (dropTz dt), some (pyStrip c.asString)) := by
    rw [fallbackScan, hsplit, fallbackGo_skip parse pre _ hpre]
    simp [fallbackGo, hc, hy]
  cases hcs : clockSearch content.data with
  | none => rw [find_best_date_clock_none parse content hcs]; exact hfall
  | some g =>
    have hpg : parse (pyStrip g.asString) = none := by
      have h0 := hclock
      simpa [clockFailed, hcs, Option.isNone_iff_eq_none] using h0
    rw [find_best_date_clock_fail parse content g hcs hpg]
    exact hfall

/-- C4 witness (spec Scenario C): the one parsable timestamp line appears
twice; the reverse scan selects the later occurrence (the head of the
reversed candidate list) and returns its timestamp. -/
theorem fallback_reverse_scan_witness :
    (timeCandidates scenarioC).reverse = [dupLine.data, dupLine.data] ∧
    find_best_date parseDup scenarioC =
      (some ⟨2023, 1, 1, 3, 14, 7, none⟩, some dupLine) := by
  refine ⟨by decide, ?_⟩
  rw [fallback_reverse_scan parseDup scenarioC [] [dupLine.data] dupLine.data
    ⟨2023, 1, 1, 3, 14, 7, none⟩ (by decide) (by decide)
    (by intro x hx; exact absurd hx (List.not_mem_nil x)) (by decide) (by decide)]
  decide

/-- C9: when neither the clock value nor any fallback candidate parses
acceptably, the result is `(None, None)`: the raw text of a failed clock
line is not propagated. -/
theorem nothing_parses_returns_none (parse : Parser) (content : String)
    (hclock : clockFailed parse content = true)
    (hall : ∀ x ∈ timeCandidates content, candidateRejected parse x = true) :
    find_best_date parse content = (none, none) := by
  have hfall : fallbackScan parse content = (none, none) := by
    rw [fallbackScan]
    have h2 : ∀ x ∈ (timeCandidates content).reverse, candidateRejected parse x = true :=
      fun x hx => hall x (List.mem_reverse.1 hx)
    simpa using fallbackGo_skip parse (timeCandidates content).reverse [] h2
  cases hcs : clockSearch content.data with
  | none => rw [find_best_date_clock_none parse content hcs]; exact hfall
  | some g =>
    have hpg : parse (pyStrip g.asString) = none := by
      have h0 := hclock
      simpa [clockFailed, hcs, Option.isNone_iff_eq_none] using h0
    rw [find_best_date_clock_fail parse content g hcs hpg]
    exact hfall

/-- C9 witness: a block whose clock line captures an unparsable value
(which is also its only fallback candidate) yields `(none, none)`, not
the raw clock text. -/
theorem nothing_parses_returns_none_witness :
    find_best_date parseNone badClockContent = (none, none) :=
  nothing_parses_returns_none parseNone badClockContent (by decide) (by decide)

/-- Lines that match neither inventory pattern leave the loop state and
output untouched. -/
theorem extractLoop_inert (ctx : Ctx) :
    ∀ (mid rest : List String) (pn pd : Option String),
      (∀ m ∈ mid, ndSearch (pyStrip m).data = none ∧
          "PID:".data.isPrefixOf (pyStrip m).data = false) →
      extractLoop ctx (mid ++ rest) pn pd = extractLoop ctx rest pn pd := by
  intro mid
  induction mid with
  | nil => intro rest pn pd _; rfl
  | cons m ms ih =>
    intro rest pn pd h
    have hm := h m (List.mem_cons_self _ _)
    simp only [List.cons_append, extractLoop, hm.1, hm.2, Bool.and_false, if_false]
    exact ih rest pn pd (fun x hx => h x (List.mem_cons_of_mem _ hx))

/-- C6: a Name/Description pair never followed by a `PID:` line before
the next Name/Description line (or the end of the text) contributes no
record: at end of text nothing is emitted, and a next Name/Description
line simply replaces the pair. -/
theorem nd_pair_without_pid_dropped (ctx : Ctx) (pn pd : Option String)
    (l n d : String) (mid : List String)
    (hl : ndSearch (pyStrip l).data = some (n, d))
    (hmid : ∀ m ∈ mid, ndSearch (pyStrip m).data = none ∧
        "PID:".data.isPrefixOf (pyStrip m).data = false) :
    extractLoop ctx (l :: mid) pn pd = [] ∧
    ∀ (l2 n2 d2 : String) (rest : List String),
      ndSearch (pyStrip l2).data = some (n2, d2) →
      extractLoop ctx (l :: (mid ++ l2 :: rest)) pn pd =
        extractLoop ctx rest (some n2) (some d2) := by
  constructor
  · simp only [extractLoop, hl]
    rw [show (mid : List String) = mid ++ [] from (List.append_nil mid).symm,
      extractLoop_inert ctx mid [] _ _ hmid]
    rfl
  · intro l2 n2 d2 rest h2
    simp only [extractLoop, hl]
    rw [extractLoop_inert ctx mid (l2 :: rest) _ _ hmid]
    simp only [extractLoop, h2]

/-- C6 witness: the pair of the first Name/Description line vanishes: at
end of text nothing is emitted, and with a later Name/Description line
plus a good `PID:` line only the second pair forms a record. -/
theorem nd_pair_without_pid_dropped_witness :
    extractLoop ctx0 [ndLineA, junkLine] none none = [] ∧
    extractLoop ctx0 [ndLineA, junkLine, ndLineC, goodPidLine] none none =
      extractLoop ctx0 [goodPidLine] (some "C") (some "D") := by
  have h := nd_pair_without_pid_dropped ctx0 none none ndLineA "A" "B" [junkLine]
    (by decide) (by decide)
  exact ⟨h.1, h.2 ndLineC "C" "D" [goodPidLine] (by decide)⟩

/-- C7: a line starting with `PID:` that fails `PID_SN_PATTERN`, met with
a truthy pending name, emits nothing and clears both pending fields, so a
later well-formed `PID:` line cannot pair with that name. -/
theorem malformed_pid_clears_state (ctx : Ctx) (n d line : String)
    (rest : List String) (hn : n ≠ "")
    (hnd : ndSearch (pyStrip line).data = none)
    (hpid : "PID:".data.isPrefixOf (pyStrip line).data = true)
    (hfail : pidSnSearch (pyStrip line).data = none) :
    extractLoop ctx (line :: rest) (some n) (some d) = extractLoop ctx rest none none := by
  have ht : truthy (some n) = true := by simp [truthy, hn]
  simp only [extractLoop, hnd, hfail, ht, hpid, Bool.and_self, if_true]

/-- C7 witness: after the malformed `PID:` line the pending pair is gone,
so the following well-formed `PID:` line emits nothing either. -/
theorem malformed_pid_clears_state_witness :
    extractLoop ctx0 [badPidLine, goodPidLine] (some "N") (some "D") = [] := by
  rw [malformed_pid_clears_state ctx0 "N" "D" badPidLine [goodPidLine]
    (by decide) (by decide) (by decide) (by decide)]
  decide

/-- C10: an empty captured name is treated as no pending pair: a `PID:`
line (whether or not it matches `PID_SN_PATTERN`) emits nothing and
leaves both the empty name and the pending description in place. -/
theorem empty_name_pending_ignored (ctx : Ctx) (pd : Option String) (line : String)
    (rest : List String)
    (hnd : ndSearch (pyStrip line).data = none)
    (_hpid : "PID:".data.isPrefixOf (pyStrip line).data = true) :
    extractLoop ctx (line :: rest) (some "") pd = extractLoop ctx rest (some "") pd := by
  simp only [extractLoop, hnd]
  simp [truthy]

/-- C10 witness: even a well-formed `PID:` line emits no record when the
pending name is the empty string. -/
theorem empty_name_pending_ignored_witness :
    extractLoop ctx0 [goodPidLine] (some "") (some "D") = [] := by
  rw [empty_name_pending_ignored ctx0 (some "D") goodPidLine [] (by decide) (by decide)]
  rfl

/-- Every record the extraction loop emits carries a nonempty name: a
record is only emitted while `current_name` is truthy. -/
theorem extractLoop_name_nonempty (ctx : Ctx) :
    ∀ (lines : List String) (pn pd : Option String) (r : Record),
      r ∈ extractLoop ctx lines pn pd → r.name ≠ "" := by
  intro lines
  induction lines with
  | nil => intro pn pd r h; simp [extractLoop] at h
  | cons line rest ih =>
    intro pn pd r h
    simp only [extractLoop] at h
    cases hnd : ndSearch (pyStrip line).data with
    | some p =>
      obtain ⟨n1, d1⟩ := p
      rw [hnd] at h
      exact ih (some n1) (some d1) r h
    | none =>
      rw [hnd] at h
      by_cases hcond : (truthy pn && "PID:".data.isPrefixOf (pyStrip line).data) = true
      · rw [if_pos hcond] at h
        cases hps : pidSnSearch (pyStrip line).data with
        | some q =>
          obtain ⟨p1, s1⟩ := q
          rw [hps] at h
          rcases List.mem_cons.1 h with h1 | h1
          · have ht : truthy pn = true := by
              have h2 := hcond
              rw [Bool.and_eq_true] at h2
              exact h2.1
            cases pn with
            | none => simp [truthy] at ht
            | some s =>
              have hs : s ≠ "" := by simpa [truthy] using ht
              subst h1
              simpa [mkRecord] using hs
          · exact ih none none r h1
        | none =>
          rw [hps] at h
          exact ih none none r h
      · rw [if_neg hcond] at h
        exact ih pn pd r h

/-- C5 counterexample: the block `emptySnContent` makes `process_content`
emit a record whose serial number and product id are both empty — the
groups `([^,]*)` and `(.*)` of `PID_SN_PATTERN` may capture nothing. -/
theorem emitted_record_empty_sn_pid :
    ¬ (∀ r ∈ process_content parseNone emptySnContent "s" "f" "c",
        r.sn ≠ "" ∧ r.pid ≠ "") := by decide

/-- C5 as amended: serial number and product id of an emitted record may
be empty, but the record's component name is always nonempty (emission
requires a truthy pending name). -/
theorem process_content_name_nonempty (parse : Parser)
    (content fullDisplayPath fileName collegeName : String) :
    ∀ r ∈ process_content parse content fullDisplayPath fileName collegeName,
      r.name ≠ "" := by
  intro r h
  exact extractLoop_name_nonempty _ _ none none r h

/-- C5 witness: the concrete record extracted from `emptySnContent` has
empty serial and product id, yet its name is nonempty. -/
theorem process_content_name_nonempty_witness :
    emptySnRecord.sn = "" ∧ emptySnRecord.pid = "" ∧ emptySnRecord.name ≠ "" :=
  ⟨by decide, by decide,
    process_content_name_nonempty parseNone emptySnContent "s" "f" "c"
      emptySnRecord (by decide)⟩

end SerialGrabber
